import Mathlib

/-!
# Verification of the Streamlit one-time voter app (`app.py`)

Shallow embedding of the Redis-backed optimistic-UI voter application.

The program keeps:
* a shared store (Redis): two integer counters `votes:yes` / `votes:no`,
  a reset-epoch counter `votes:reset_version`, and a hash
  `votes:names : name -> choice` with choice in `{"yes","no","none"}`;
* per-browser-session state (`st.session_state`): `voted : bool`,
  `voted_choice : None | "yes" | "no"`, `voter_name : string`,
  `last_reset_version : int`, and optimistic shadow counters
  `local_yes` / `local_no`.

Redis calls can raise; each fallible single-call remote phase is
modelled by a `Bool` flag saying whether that call succeeds (`true`) or
raises (`false`).  The vote-switch pipeline is a transactional redis-py
pipeline, so its failure is all-or-nothing.  The reset handlers instead
issue several independent Redis commands inside one `try` block, so a
mid-sequence raise leaves a partially reset store; their outcome is
modelled by an `Option Nat`: `Option.none` when every command succeeds,
`some w` when a command raises after exactly `w` earlier writes landed.
-/

/-- A recorded choice, the values of the `votes:names` hash
(`"yes"`, `"no"`, `"none"`). -/
inductive Choice where
  | yes
  | no
  | none
deriving DecidableEq, Repr

/-- The shared Redis store: the two counters, the `votes:names` hash
(an association list with at most one binding per key, Redis-hash style:
lookups and updates act on the first binding), and the reset epoch. -/
structure Store where
  yesK : Int
  noK : Int
  names : List (String × Choice)
  resetK : Nat
deriving DecidableEq, Repr

/-- Per-browser-session state (`st.session_state`). -/
structure Session where
  voted : Bool
  voted_choice : Option Choice
  voter_name : String
  last_reset_version : Nat
  local_yes : Int
  local_no : Int
deriving DecidableEq, Repr

/-- `r.hget`: first binding of the key, if any. -/
def hget : List (String × Choice) → String → Option Choice
  | [], _ => Option.none
  | p :: t, k => if p.1 = k then some p.2 else hget t k

/-- `r.hset`: overwrite the first binding of the key, or append a new one. -/
def hset : List (String × Choice) → String → Choice → List (String × Choice)
  | [], k, v => [(k, v)]
  | p :: t, k, v => if p.1 = k then (k, v) :: t else p :: hset t k v

/-- Number of hash entries recording a given choice. -/
def countChoice (h : List (String × Choice)) (c : Choice) : Nat :=
  (h.filter (fun p => decide (p.2 = c))).length

/-- Number of hash entries with a recorded (non-`none`) choice. -/
def countVoted (h : List (String × Choice)) : Nat :=
  (h.filter (fun p => decide (p.2 ≠ Choice.none))).length

/-- The store is consistent: each counter equals the number of hash
records holding that choice. -/
def Store.consistent (st : Store) : Prop :=
  st.yesK = (countChoice st.names Choice.yes : Int) ∧
  st.noK = (countChoice st.names Choice.no : Int)

instance : DecidablePred Store.consistent := fun _ =>
  inferInstanceAs (Decidable (_ ∧ _))

/-- The store mutation of `cast_vote_remote` (`app.py` lines 124-143),
assuming the name check has passed: read the previous choice
(`"none"` when absent), and either just rewrite the hash entry
(same choice) or adjust both counters and the entry via the pipeline. -/
def castRemote (st : Store) (name : String) (new_choice : Choice) : Store :=
  let prev := (hget st.names name).getD Choice.none
  if prev = new_choice then
    { st with names := hset st.names name new_choice }
  else
    { st with
        yesK := st.yesK + (if prev = Choice.yes then -1 else 0) +
          (if new_choice = Choice.yes then 1 else 0),
        noK := st.noK + (if prev = Choice.no then -1 else 0) +
          (if new_choice = Choice.no then 1 else 0),
        names := hset st.names name new_choice }

/-- `cast_vote_remote(name, new_choice)`: raises `ValueError` on an empty
name (modelled as `Option.none`), otherwise performs the remote update. -/
def cast_vote_remote (st : Store) (name : String) (new_choice : Choice) :
    Option Store :=
  if name = "" then Option.none else some (castRemote st name new_choice)

/-- A sequence of remote casts with no resets interleaved. -/
def castListRemote : Store → List (String × Choice) → Option Store
  | st, [] => some st
  | st, (n, c) :: t =>
    match cast_vote_remote st n c with
    | Option.none => Option.none
    | some st' => castListRemote st' t

/-- The fresh store the module-level initialisation produces on an empty
Redis instance (`app.py` lines 24-29). -/
def initStore : Store := ⟨0, 0, [], 0⟩

/-! ## The session layer: reset-version check, buttons, optimistic ops -/

/-- The module-level reset-version check (`app.py` lines 84-88): if the
store's current reset version exceeds the one the session last saw,
clear `voted`/`voted_choice` and record the new version. -/
def checkUnlock (current_reset_version : Nat) (s : Session) : Session :=
  if s.last_reset_version < current_reset_version then
    { s with voted := false, voted_choice := Option.none,
             last_reset_version := current_reset_version }
  else s

/-- The `disabled=` expression of the YES button
(`app.py` line 291): `has_voted or not st.session_state.voter_name`. -/
def yes_button_disabled (s : Session) : Bool :=
  s.voted || decide (s.voter_name = "")

/-- The `disabled=` expression of the NO button (`app.py` line 299). -/
def no_button_disabled (s : Session) : Bool :=
  s.voted || decide (s.voter_name = "")

/-- The previous choice `cast_vote_optimistic` determines locally
(`app.py` lines 152-157): the session's `voted_choice` when set, else a
Redis `hget` (defaulting to `"none"`, and to `"none"` again when the
`hget` itself raises). `prevOk` says whether that `hget` succeeds. -/
def prevLocal (prevOk : Bool) (st : Store) (s : Session) (name : String) :
    Choice :=
  match s.voted_choice with
  | some c => c
  | Option.none =>
    if prevOk then (hget st.names name).getD Choice.none else Choice.none

/-- `cast_vote_optimistic(name, new_choice)` (`app.py` lines 146-202),
acting on the pair (store, session).

Remote phases and their failure flags: `prevOk` for the `hget` fallback
that determines the previous choice, `remOk` for `cast_vote_remote`
together with the follow-up read of the reset version, `refreshOk` for
`refresh_local_counters_from_redis` in the rollback, and `actualOk` for
the `hget` that re-reads the stored choice in the rollback. -/
def cast_vote_optimistic (prevOk remOk refreshOk actualOk : Bool)
    (st : Store) (s : Session) (name : String) (new_choice : Choice) :
    Store × Session :=
  if name = "" then (st, s)
  else
    let prev_local := prevLocal prevOk st s name
    if prev_local = new_choice then
      (st, { s with voted := true, voted_choice := some new_choice })
    else
      let optimistic_yes :=
        (if prev_local = Choice.yes then max 0 (s.local_yes - 1)
         else s.local_yes) +
        (if new_choice = Choice.yes then 1 else 0)
      let optimistic_no :=
        (if prev_local = Choice.no then max 0 (s.local_no - 1)
         else s.local_no) +
        (if new_choice = Choice.no then 1 else 0)
      if remOk then
        (castRemote st name new_choice,
         { s with local_yes := optimistic_yes, local_no := optimistic_no,
                  voted := true, voted_choice := some new_choice,
                  last_reset_version := st.resetK })
      else
        (st,
         { s with
             local_yes := if refreshOk then st.yesK else optimistic_yes,
             local_no := if refreshOk then st.noK else optimistic_no,
             voted := false,
             voted_choice :=
               if actualOk then
                 match hget st.names name with
                 | some c =>
                   if c = Choice.none then Option.none else some c
                 | Option.none => Option.none
               else Option.none })

/-- Set the choices of the first `n` entries to `none`: the prefix of
the `for n in existing.keys()` loop completed before a raise. -/
def setNamesNoneFirst : List (String × Choice) → Nat → List (String × Choice)
  | h, 0 => h
  | [], _ + 1 => []
  | p :: t, n + 1 => (p.1, Choice.none) :: setNamesNoneFirst t n

/-- `reset_counts_optimistic()` (`app.py` lines 205-228): zero the local
counters and unlock the session, then replay remotely — `r.set(YES, 0)`,
`r.set(NO, 0)`, one `r.hset(name, "none")` per existing name, and
finally `r.incr(RESET)` — as independent commands.  `outcome =
Option.none` means every command succeeded; `outcome = some w` means a
command raised after exactly `w` earlier writes landed (capped at
`2 + names.length`, since nothing after a successful `incr` can raise).
On failure the except block restores only the local counters. -/
def reset_counts_optimistic (outcome : Option Nat) (st : Store)
    (s : Session) : Store × Session :=
  match outcome with
  | Option.none =>
    ({ st with yesK := 0, noK := 0,
               names := st.names.map (fun p => (p.1, Choice.none)),
               resetK := st.resetK + 1 },
     { s with local_yes := 0, local_no := 0,
              voted := false, voted_choice := Option.none,
              last_reset_version := st.resetK + 1 })
  | some w =>
    let done := min w (2 + st.names.length)
    ({ st with
         yesK := if 1 ≤ done then 0 else st.yesK,
         noK := if 2 ≤ done then 0 else st.noK,
         names := setNamesNoneFirst st.names (done - 2) },
     { s with voted := false, voted_choice := Option.none })

/-- `reset_all_optimistic()` (`app.py` lines 231-264): clear all local
session state, then replay remotely — `r.set(YES, 0)`, `r.set(NO, 0)`,
`r.delete(names)`, `r.incr(RESET)` — as independent commands.
`outcome = Option.none` means every command succeeded; `outcome =
some w` means a command raised after exactly `w` earlier writes landed
(capped at `3`: nothing after a successful `incr` can raise).  On
failure the except block restores every saved session field. -/
def reset_all_optimistic (outcome : Option Nat) (st : Store)
    (s : Session) : Store × Session :=
  match outcome with
  | Option.none =>
    ({ st with yesK := 0, noK := 0, names := [], resetK := st.resetK + 1 },
     { s with local_yes := 0, local_no := 0, voted := false,
              voted_choice := Option.none, voter_name := "",
              last_reset_version := st.resetK + 1 })
  | some w =>
    let done := min w 3
    ({ st with
         yesK := if 1 ≤ done then 0 else st.yesK,
         noK := if 2 ≤ done then 0 else st.noK,
         names := if 3 ≤ done then [] else st.names },
     s)

/-- Python's `str.strip()`: drop leading and trailing whitespace
(structurally on the character list, so it evaluates by `decide`). -/
def pyStrip (s : String) : String :=
  String.mk
    (((s.data.dropWhile Char.isWhitespace).reverse.dropWhile
        Char.isWhitespace).reverse)

/-- The Set Name button handler (`app.py` lines 59-79): reject an empty
or whitespace-only input; otherwise store the trimmed name in the
session and eagerly create a `"none"`-choice record in the names hash
(`hsetOk` says whether that remote `hset` succeeds; on failure the
session's name is rolled back to the empty string). -/
def set_name (hsetOk : Bool) (st : Store) (s : Session) (name_input : String) :
    Store × Session :=
  if name_input ≠ "" ∧ pyStrip name_input ≠ "" then
    let cleaned := pyStrip name_input
    if hsetOk then
      ({ st with names := hset st.names cleaned Choice.none },
       { s with voter_name := cleaned, voted := false,
                voted_choice := Option.none, last_reset_version := st.resetK })
    else
      (st, { s with voter_name := "", voted := false,
                    voted_choice := Option.none,
                    last_reset_version := st.resetK })
  else (st, s)

/-- One user-visible mutating interaction, with its remote-failure
flags (for resets, the `Option Nat` failure-point outcome). -/
inductive Op where
  | cast (prevOk remOk refreshOk actualOk : Bool) (name : String) (c : Choice)
  | resetCounts (outcome : Option Nat)
  | resetAll (outcome : Option Nat)

/-- An interaction whose remote phase either fully succeeds or raises
before its first write lands (for example the store-unreachable
failure); casts always qualify because their pipeline is
transactional. -/
def Op.atomicFailure : Op → Bool
  | .resetCounts (some w) => w == 0
  | .resetAll (some w) => w == 0
  | _ => true

/-- Apply one interaction to the (store, session) pair. -/
def stepOp (p : Store × Session) : Op → Store × Session
  | .cast prevOk remOk refreshOk actualOk name c =>
    cast_vote_optimistic prevOk remOk refreshOk actualOk p.1 p.2 name c
  | .resetCounts outcome => reset_counts_optimistic outcome p.1 p.2
  | .resetAll outcome => reset_all_optimistic outcome p.1 p.2

/-- Apply a sequence of interactions. -/
def runOps (p : Store × Session) : List Op → Store × Session
  | [] => p
  | o :: t => runOps (stepOp p o) t

/-- The global invariant: the store is consistent, and the session's
optimistic shadow counters are non-negative. -/
def VoterInv (p : Store × Session) : Prop :=
  p.1.consistent ∧ 0 ≤ p.2.local_yes ∧ 0 ≤ p.2.local_no

/-! ## Basic lemmas about the hash model -/

theorem countChoice_nil (c : Choice) : countChoice [] c = 0 := rfl

theorem countChoice_cons (p : String × Choice) (t : List (String × Choice))
    (c : Choice) :
    countChoice (p :: t) c = (if p.2 = c then 1 else 0) + countChoice t c := by
  by_cases hc : p.2 = c
  · simp [countChoice, List.filter_cons, hc]
    omega
  · simp [countChoice, List.filter_cons, hc]

theorem countVoted_nil : countVoted [] = 0 := rfl

theorem countVoted_cons (p : String × Choice) (t : List (String × Choice)) :
    countVoted (p :: t) =
      (if p.2 = Choice.none then 0 else 1) + countVoted t := by
  by_cases hc : p.2 = Choice.none
  · simp [countVoted, List.filter_cons, hc]
  · simp [countVoted, List.filter_cons, hc]
    omega

theorem hget_hset_self (h : List (String × Choice)) (k : String) (v : Choice) :
    hget (hset h k v) k = some v := by
  induction h with
  | nil => simp [hget, hset]
  | cons p t ih =>
    by_cases hp : p.1 = k
    · simp [hget, hset, hp]
    · simp [hget, hset, hp, ih]

theorem countChoice_hset_of_hget_none (h : List (String × Choice))
    (k : String) (v c : Choice) (hk : hget h k = Option.none) :
    countChoice (hset h k v) c =
      countChoice h c + (if v = c then 1 else 0) := by
  induction h with
  | nil =>
    simp [hset, countChoice_cons, countChoice_nil]
  | cons p t ih =>
    have hp : ¬p.1 = k := by
      intro hpk
      simp [hget, hpk] at hk
    have hk' : hget t k = Option.none := by simpa [hget, hp] using hk
    simp only [hset, hp, if_neg, not_false_iff, countChoice_cons, ih hk']
    omega

theorem countChoice_hset_of_hget_some (h : List (String × Choice))
    (k : String) (v c p : Choice) (hk : hget h k = some p) :
    countChoice (hset h k v) c + (if p = c then 1 else 0) =
      countChoice h c + (if v = c then 1 else 0) := by
  induction h with
  | nil => simp [hget] at hk
  | cons q t ih =>
    by_cases hq : q.1 = k
    · have hp : q.2 = p := by simpa [hget, hq] using hk
      subst hp
      simp only [hset, hq, if_pos, countChoice_cons]
      omega
    · have hk' : hget t k = some p := by simpa [hget, hq] using hk
      have key := ih hk'
      simp only [hset, hq, if_neg, not_false_iff, countChoice_cons]
      omega

theorem countVoted_eq_countChoice (h : List (String × Choice)) :
    countVoted h = countChoice h Choice.yes + countChoice h Choice.no := by
  induction h with
  | nil => rfl
  | cons p t ih =>
    rw [countVoted_cons, countChoice_cons, countChoice_cons, ih]
    cases p.2 <;> simp <;> omega

theorem hget_none_iff_not_mem_keys (h : List (String × Choice)) (k : String) :
    hget h k = Option.none ↔ k ∉ h.map Prod.fst := by
  induction h with
  | nil => simp [hget]
  | cons p t ih =>
    by_cases hp : p.1 = k
    · simp [hget, hp]
    · have e : hget (p :: t) k = hget t k := by simp [hget, hp]
      rw [e, ih]
      simp only [List.map_cons, List.mem_cons, not_or]
      constructor
      · intro hm
        exact ⟨fun hh => hp hh.symm, hm⟩
      · intro hm
        exact hm.2

theorem keys_hset (h : List (String × Choice)) (k : String) (v : Choice) :
    (hset h k v).map Prod.fst =
      if hget h k = Option.none then h.map Prod.fst ++ [k]
      else h.map Prod.fst := by
  induction h with
  | nil => simp [hget, hset]
  | cons p t ih =>
    by_cases hp : p.1 = k
    · simp [hget, hset, hp]
    · have e : hget (p :: t) k = hget t k := by simp [hget, hp]
      rw [e]
      cases hg : hget t k with
      | none => simp [hset, hp, ih, hg]
      | some q => simp [hset, hp, ih, hg]

theorem keys_nodup_hset (h : List (String × Choice)) (k : String) (v : Choice)
    (hn : (h.map Prod.fst).Nodup) : ((hset h k v).map Prod.fst).Nodup := by
  rw [keys_hset]
  cases hg : hget h k with
  | none =>
    rw [if_pos rfl]
    have hk : k ∉ h.map Prod.fst := (hget_none_iff_not_mem_keys h k).mp hg
    rw [List.nodup_append]
    refine ⟨hn, List.nodup_singleton k, ?_⟩
    intro a ha hmem
    rw [List.mem_singleton] at hmem
    subst hmem
    exact hk ha
  | some q =>
    simp only [reduceCtorEq, if_false]
    exact hn

/-! ## Consistency of the remote store under casts -/

theorem names_castRemote (st : Store) (name : String) (nc : Choice) :
    (castRemote st name nc).names = hset st.names name nc := by
  unfold castRemote
  by_cases hp : (hget st.names name).getD Choice.none = nc <;> simp [hp]

theorem consistent_castRemote (st : Store) (name : String) (nc : Choice)
    (h : st.consistent) : (castRemote st name nc).consistent := by
  obtain ⟨hy, hn⟩ := h
  unfold castRemote Store.consistent
  cases hk : hget st.names name with
  | none =>
    have cy := countChoice_hset_of_hget_none st.names name nc Choice.yes hk
    have cn := countChoice_hset_of_hget_none st.names name nc Choice.no hk
    cases nc <;> simp_all
  | some p =>
    have cy := countChoice_hset_of_hget_some st.names name nc Choice.yes p hk
    have cn := countChoice_hset_of_hget_some st.names name nc Choice.no p hk
    cases nc <;> cases p <;> simp_all <;> omega

theorem keys_nodup_castRemote (st : Store) (name : String) (nc : Choice)
    (hn : (st.names.map Prod.fst).Nodup) :
    ((castRemote st name nc).names.map Prod.fst).Nodup := by
  rw [names_castRemote]
  exact keys_nodup_hset _ _ _ hn

/-! ## Invariants preserved by the operations -/

theorem countChoice_map_none (h : List (String × Choice)) (c : Choice)
    (hc : c ≠ Choice.none) :
    countChoice (h.map (fun p => (p.1, Choice.none))) c = 0 := by
  induction h with
  | nil => rfl
  | cons p t ih =>
    have hne : ¬(Choice.none = c) := fun hh => hc hh.symm
    simp [List.map_cons, countChoice_cons, hne, ih]

theorem consistent_sum (st : Store) (hc : st.consistent) :
    st.yesK + st.noK = (countVoted st.names : Int) := by
  obtain ⟨hy, hn⟩ := hc
  rw [hy, hn, countVoted_eq_countChoice]
  push_cast
  ring

theorem consistent_nonneg (st : Store) (hc : st.consistent) :
    0 ≤ st.yesK ∧ 0 ≤ st.noK := by
  obtain ⟨hy, hn⟩ := hc
  rw [hy, hn]
  exact ⟨Int.natCast_nonneg _, Int.natCast_nonneg _⟩

theorem voterInv_cast_vote_optimistic (prevOk remOk refreshOk actualOk : Bool)
    (st : Store) (s : Session) (name : String) (c : Choice)
    (h : VoterInv (st, s)) :
    VoterInv (cast_vote_optimistic prevOk remOk refreshOk actualOk st s name c) := by
  obtain ⟨hc, hy, hn⟩ := h
  have hyes :
      (0:Int) ≤ (if prevLocal prevOk st s name = Choice.yes then
        max 0 (s.local_yes - 1) else s.local_yes) +
        (if c = Choice.yes then 1 else 0) := by
    have h1 : (0:Int) ≤ (if prevLocal prevOk st s name = Choice.yes then
        max 0 (s.local_yes - 1) else s.local_yes) := by
      split
      · exact le_max_left 0 _
      · exact hy
    have h2 : (0:Int) ≤ (if c = Choice.yes then (1:Int) else 0) := by
      split <;> omega
    omega
  have hno :
      (0:Int) ≤ (if prevLocal prevOk st s name = Choice.no then
        max 0 (s.local_no - 1) else s.local_no) +
        (if c = Choice.no then 1 else 0) := by
    have h1 : (0:Int) ≤ (if prevLocal prevOk st s name = Choice.no then
        max 0 (s.local_no - 1) else s.local_no) := by
      split
      · exact le_max_left 0 _
      · exact hn
    have h2 : (0:Int) ≤ (if c = Choice.no then (1:Int) else 0) := by
      split <;> omega
    omega
  obtain ⟨hsy, hsn⟩ := consistent_nonneg st hc
  unfold cast_vote_optimistic
  by_cases h1 : name = ""
  · rw [if_pos h1]
    exact ⟨hc, hy, hn⟩
  · rw [if_neg h1]
    by_cases h2 : prevLocal prevOk st s name = c
    · rw [if_pos h2]
      exact ⟨hc, hy, hn⟩
    · rw [if_neg h2]
      cases remOk with
      | true =>
        simp only [if_pos]
        exact ⟨consistent_castRemote st name c hc, hyes, hno⟩
      | false =>
        simp only [Bool.false_eq_true, if_neg, not_false_iff]
        refine ⟨hc, ?_, ?_⟩
        · cases refreshOk <;> simpa using (by assumption : _)
        · cases refreshOk <;> simpa using (by assumption : _)

theorem voterInv_reset_counts_optimistic (outcome : Option Nat) (st : Store)
    (s : Session) (ha : outcome = Option.none ∨ outcome = some 0)
    (h : VoterInv (st, s)) :
    VoterInv (reset_counts_optimistic outcome st s) := by
  obtain ⟨hc, hy, hn⟩ := h
  rcases ha with ha | ha <;> subst ha
  · refine ⟨⟨?_, ?_⟩, by simp [reset_counts_optimistic],
      by simp [reset_counts_optimistic]⟩ <;>
      simp [reset_counts_optimistic, countChoice_map_none]
  · have hc2 : st.consistent := hc
    have hmin : min 0 (2 + st.names.length) = 0 := by omega
    refine ⟨⟨?_, ?_⟩, ?_, ?_⟩
    · simpa [reset_counts_optimistic, hmin, setNamesNoneFirst] using hc2.1
    · simpa [reset_counts_optimistic, hmin, setNamesNoneFirst] using hc2.2
    · simpa [reset_counts_optimistic] using hy
    · simpa [reset_counts_optimistic] using hn

theorem voterInv_reset_all_optimistic (outcome : Option Nat) (st : Store)
    (s : Session) (ha : outcome = Option.none ∨ outcome = some 0)
    (h : VoterInv (st, s)) :
    VoterInv (reset_all_optimistic outcome st s) := by
  obtain ⟨hc, hy, hn⟩ := h
  rcases ha with ha | ha <;> subst ha
  · refine ⟨⟨?_, ?_⟩, ?_, ?_⟩ <;> simp [reset_all_optimistic, countChoice_nil]
  · have hc2 : st.consistent := hc
    have hmin : min 0 3 = 0 := by omega
    refine ⟨⟨?_, ?_⟩, ?_, ?_⟩
    · simpa [reset_all_optimistic, hmin] using hc2.1
    · simpa [reset_all_optimistic, hmin] using hc2.2
    · simpa [reset_all_optimistic] using hy
    · simpa [reset_all_optimistic] using hn

theorem voterInv_stepOp (p : Store × Session) (o : Op)
    (ho : o.atomicFailure = true) (h : VoterInv p) :
    VoterInv (stepOp p o) := by
  cases o with
  | cast prevOk remOk refreshOk actualOk name c =>
    exact voterInv_cast_vote_optimistic prevOk remOk refreshOk actualOk p.1 p.2 name c h
  | resetCounts outcome =>
    refine voterInv_reset_counts_optimistic outcome p.1 p.2 ?_ h
    cases outcome with
    | none => exact Or.inl rfl
    | some w =>
      simp only [Op.atomicFailure, beq_iff_eq] at ho
      exact Or.inr (by rw [ho])
  | resetAll outcome =>
    refine voterInv_reset_all_optimistic outcome p.1 p.2 ?_ h
    cases outcome with
    | none => exact Or.inl rfl
    | some w =>
      simp only [Op.atomicFailure, beq_iff_eq] at ho
      exact Or.inr (by rw [ho])

theorem voterInv_runOps (p : Store × Session) (ops : List Op)
    (ha : ∀ o ∈ ops, o.atomicFailure = true) (h : VoterInv p) :
    VoterInv (runOps p ops) := by
  induction ops generalizing p with
  | nil => exact h
  | cons o t ih =>
    exact ih _ (fun o' ho' => ha o' (List.mem_cons_of_mem o ho'))
      (voterInv_stepOp p o (ha o (List.mem_cons_self o t)) h)

/-! ## Sequences of remote casts -/

theorem castListRemote_preserves (ops : List (String × Choice)) :
    ∀ st st' : Store, st.consistent → (st.names.map Prod.fst).Nodup →
      castListRemote st ops = some st' →
      st'.consistent ∧ (st'.names.map Prod.fst).Nodup := by
  induction ops with
  | nil =>
    intro st st' hc hnd h
    simp only [castListRemote, Option.some.injEq] at h
    subst h
    exact ⟨hc, hnd⟩
  | cons p t ih =>
    intro st st' hc hnd h
    obtain ⟨n, c⟩ := p
    simp only [castListRemote] at h
    by_cases hn : n = ""
    · simp [cast_vote_remote, hn] at h
    · simp only [cast_vote_remote, hn, if_neg, not_false_iff] at h
      exact ih (castRemote st n c) st' (consistent_castRemote st n c hc)
        (keys_nodup_castRemote st n c hnd) h

/-! ## Claim theorems -/

/-- C1: over any sequence of casts with no resets, starting from a
consistent store with duplicate-free voter names, the sum of the yes and
no counters equals the number of distinct voters with a recorded
(non-`none`) choice, and the store stays consistent. -/
theorem cast_sequence_sum_matches_records (st st' : Store)
    (ops : List (String × Choice))
    (hc : st.consistent) (hnd : (st.names.map Prod.fst).Nodup)
    (hrun : castListRemote st ops = some st') :
    (st'.names.map Prod.fst).Nodup ∧ st'.consistent ∧
      st'.yesK + st'.noK = (countVoted st'.names : Int) := by
  obtain ⟨hc', hnd'⟩ := castListRemote_preserves ops st st' hc hnd hrun
  exact ⟨hnd', hc', consistent_sum st' hc'⟩

theorem cast_sequence_sum_matches_records_witness :
    initStore.consistent ∧ (initStore.names.map Prod.fst).Nodup ∧
    castListRemote initStore
        [("a", Choice.yes), ("b", Choice.no), ("a", Choice.no)] =
      some ⟨0, 2, [("a", Choice.no), ("b", Choice.no)], 0⟩ ∧
    ((⟨0, 2, [("a", Choice.no), ("b", Choice.no)], 0⟩ : Store).names.map
        Prod.fst).Nodup ∧
    (⟨0, 2, [("a", Choice.no), ("b", Choice.no)], 0⟩ : Store).consistent ∧
    (⟨0, 2, [("a", Choice.no), ("b", Choice.no)], 0⟩ : Store).yesK +
        (⟨0, 2, [("a", Choice.no), ("b", Choice.no)], 0⟩ : Store).noK =
      (countVoted
        (⟨0, 2, [("a", Choice.no), ("b", Choice.no)], 0⟩ : Store).names
        : Int) := by
  refine ⟨by decide, by decide, by decide, ?_⟩
  exact cast_sequence_sum_matches_records initStore
    ⟨0, 2, [("a", Choice.no), ("b", Choice.no)], 0⟩
    [("a", Choice.yes), ("b", Choice.no), ("a", Choice.no)]
    (by decide) (by decide) (by decide)

/-- C2: when the stored prior choice differs from the new one,
`cast_vote_remote` decrements the prior choice's counter, increments the
new choice's counter, and rewrites the voter's record to the new
choice. -/
theorem cast_vote_switch (st : Store) (name : String) (p nc : Choice)
    (hname : name ≠ "") (hp : hget st.names name = some p)
    (hne : p ≠ nc) :
    ∃ st', cast_vote_remote st name nc = some st' ∧
      st'.yesK = st.yesK + (if p = Choice.yes then -1 else 0) +
        (if nc = Choice.yes then 1 else 0) ∧
      st'.noK = st.noK + (if p = Choice.no then -1 else 0) +
        (if nc = Choice.no then 1 else 0) ∧
      hget st'.names name = some nc := by
  have hrem : castRemote st name nc =
      { st with
          yesK := st.yesK + (if p = Choice.yes then -1 else 0) +
            (if nc = Choice.yes then 1 else 0),
          noK := st.noK + (if p = Choice.no then -1 else 0) +
            (if nc = Choice.no then 1 else 0),
          names := hset st.names name nc } := by
    unfold castRemote
    simp [hp, hne]
  refine ⟨castRemote st name nc, ?_, ?_, ?_, ?_⟩
  · simp [cast_vote_remote, hname]
  · rw [hrem]
  · rw [hrem]
  · rw [names_castRemote]
    exact hget_hset_self _ _ _

theorem cast_vote_switch_witness :
    ∃ st', cast_vote_remote ⟨1, 0, [("alice", Choice.yes)], 0⟩ "alice"
        Choice.no = some st' ∧
      st'.yesK = 0 ∧ st'.noK = 1 ∧
      hget st'.names "alice" = some Choice.no := by
  obtain ⟨st', h1, h2, h3, h4⟩ :=
    cast_vote_switch ⟨1, 0, [("alice", Choice.yes)], 0⟩ "alice"
      Choice.yes Choice.no (by decide) (by decide) (by decide)
  refine ⟨st', h1, ?_, ?_, h4⟩
  · rw [h2]; decide
  · rw [h3]; decide

/-- C3: a session that has voted and has not observed a newer reset
epoch keeps its lock through the reset-version check: both vote buttons
render disabled, so no cast can be triggered from it. -/
theorem voted_session_buttons_disabled (cur : Nat) (s : Session)
    (hep : ¬s.last_reset_version < cur) (hv : s.voted = true) :
    yes_button_disabled (checkUnlock cur s) = true ∧
      no_button_disabled (checkUnlock cur s) = true := by
  have e : checkUnlock cur s = s := by simp [checkUnlock, hep]
  rw [e]
  simp [yes_button_disabled, no_button_disabled, hv]

theorem voted_session_buttons_disabled_witness :
    yes_button_disabled
        (checkUnlock 3 ⟨true, some Choice.yes, "alice", 3, 1, 0⟩) = true ∧
    no_button_disabled
        (checkUnlock 3 ⟨true, some Choice.yes, "alice", 3, 1, 0⟩) = true :=
  voted_session_buttons_disabled 3 ⟨true, some Choice.yes, "alice", 3, 1, 0⟩
    (by decide) (by decide)

/-- C7: the reset-version check clears `voted`/`voted_choice` and adopts
the current epoch exactly when the current epoch is strictly newer than
the session's last seen epoch; otherwise the session is unchanged. -/
theorem check_unlock_epoch (cur : Nat) (s : Session) :
    (s.last_reset_version < cur →
      checkUnlock cur s =
        { s with voted := false, voted_choice := Option.none,
                 last_reset_version := cur }) ∧
    (¬s.last_reset_version < cur → checkUnlock cur s = s) := by
  constructor <;> intro h <;> simp [checkUnlock, h]

theorem check_unlock_epoch_witness :
    checkUnlock 5 ⟨true, some Choice.yes, "a", 3, 1, 0⟩ =
      ⟨false, Option.none, "a", 5, 1, 0⟩ ∧
    checkUnlock 2 ⟨true, some Choice.yes, "a", 3, 1, 0⟩ =
      ⟨true, some Choice.yes, "a", 3, 1, 0⟩ :=
  ⟨(check_unlock_epoch 5 ⟨true, some Choice.yes, "a", 3, 1, 0⟩).1 (by decide),
   (check_unlock_epoch 2 ⟨true, some Choice.yes, "a", 3, 1, 0⟩).2 (by decide)⟩

/-- C8: the Set Name handler leaves both the session and the store
untouched on an empty or whitespace-only input; on any other input it
stores the trimmed name in the session and eagerly creates a
`none`-choice voter record. -/
theorem set_name_validation (st : Store) (s : Session) (input : String) :
    (pyStrip input = "" → set_name true st s input = (st, s)) ∧
    (pyStrip input ≠ "" →
      (set_name true st s input).2.voter_name = pyStrip input ∧
      (set_name true st s input).2.voted = false ∧
      (set_name true st s input).2.voted_choice = Option.none ∧
      hget (set_name true st s input).1.names (pyStrip input) =
        some Choice.none) := by
  constructor
  · intro h
    have h2 : ¬(input ≠ "" ∧ pyStrip input ≠ "") := fun hcon => hcon.2 h
    simp [set_name, h2]
  · intro h
    have hne : input ≠ "" := by
      intro he
      subst he
      exact h (by decide)
    have hcond : input ≠ "" ∧ pyStrip input ≠ "" := ⟨hne, h⟩
    simp [set_name, hcond, hget_hset_self]

theorem set_name_validation_witness :
    set_name true initStore ⟨false, Option.none, "", 0, 0, 0⟩ "   " =
      (initStore, ⟨false, Option.none, "", 0, 0, 0⟩) ∧
    (set_name true initStore ⟨false, Option.none, "", 0, 0, 0⟩
        "  bob ").2.voter_name = "bob" ∧
    hget (set_name true initStore ⟨false, Option.none, "", 0, 0, 0⟩
        "  bob ").1.names "bob" = some Choice.none := by
  have h1 := (set_name_validation initStore
    ⟨false, Option.none, "", 0, 0, 0⟩ "   ").1 (by decide)
  have h2 := (set_name_validation initStore
    ⟨false, Option.none, "", 0, 0, 0⟩ "  bob ").2 (by decide)
  have ht : pyStrip "  bob " = "bob" := by decide
  refine ⟨h1, ?_, ?_⟩
  · rw [h2.1, ht]
  · have := h2.2.2.2
    rw [ht] at this
    exact this

theorem hget_map_none (h : List (String × Choice)) (k : String) (c : Choice)
    (hk : hget h k = some c) :
    hget (h.map (fun p => (p.1, Choice.none))) k = some Choice.none := by
  induction h with
  | nil => simp [hget] at hk
  | cons p t ih =>
    by_cases hp : p.1 = k
    · simp [hget, hp]
    · simp only [hget, hp, if_neg, not_false_iff] at hk
      simp only [List.map_cons, hget, hp, if_neg, not_false_iff]
      exact ih hk

/-- C4 counterexample: a failed remote replay does not leave the session
equal to its pre-cast state — the rollback reloads `voted_choice` from
the store, which can differ from the session's prior value. -/
theorem cast_failure_not_state_restoring :
    (cast_vote_optimistic true false true true
        ⟨1, 0, [("a", Choice.yes)], 0⟩ ⟨false, Option.none, "a", 0, 1, 0⟩
        "a" Choice.no).2 ≠ ⟨false, Option.none, "a", 0, 1, 0⟩ := by
  decide

/-- C4 (amended): when the remote replay of an optimistic cast raises,
the store is unchanged and the session's voted flag is cleared so it
may retry; when the rollback read succeeds, the local shadow counters
are reset to the authoritative store values (the last known-good ones).
The session's `voted_choice` is reloaded from the store, so the session
state need not equal its pre-cast state. -/
theorem cast_failure_rollback (prevOk actualOk : Bool) (st : Store)
    (s : Session) (name : String) (nc : Choice)
    (hname : name ≠ "") (hprev : prevLocal prevOk st s name ≠ nc) :
    (cast_vote_optimistic prevOk false true actualOk st s name nc).1 = st ∧
    (cast_vote_optimistic prevOk false true actualOk st s name
        nc).2.local_yes = st.yesK ∧
    (cast_vote_optimistic prevOk false true actualOk st s name
        nc).2.local_no = st.noK ∧
    (cast_vote_optimistic prevOk false true actualOk st s name
        nc).2.voted = false ∧
    (cast_vote_optimistic prevOk false true actualOk st s name
        nc).2.last_reset_version = s.last_reset_version := by
  unfold cast_vote_optimistic
  rw [if_neg hname]
  simp only [hprev, if_neg, not_false_iff, Bool.false_eq_true, if_false]
  simp

theorem cast_failure_rollback_witness :
    ("b" : String) ≠ "" ∧
    prevLocal true ⟨2, 3, [("b", Choice.no)], 1⟩
        ⟨false, Option.none, "b", 1, 2, 3⟩ "b" ≠ Choice.yes ∧
    (cast_vote_optimistic true false true true ⟨2, 3, [("b", Choice.no)], 1⟩
        ⟨false, Option.none, "b", 1, 2, 3⟩ "b" Choice.yes).1 =
      ⟨2, 3, [("b", Choice.no)], 1⟩ ∧
    (cast_vote_optimistic true false true true ⟨2, 3, [("b", Choice.no)], 1⟩
        ⟨false, Option.none, "b", 1, 2, 3⟩ "b" Choice.yes).2.voted = false := by
  have h := cast_failure_rollback true true ⟨2, 3, [("b", Choice.no)], 1⟩
    ⟨false, Option.none, "b", 1, 2, 3⟩ "b" Choice.yes (by decide) (by decide)
  exact ⟨by decide, by decide, h.1, h.2.2.2.1⟩

/-- C5: a successful Reset Counts zeroes both counters, keeps every
voter record (same keys, nothing deleted) with its choice set to `none`,
bumps the reset epoch by one, and zeroes the local shadow counters. -/
theorem reset_counts_success (st : Store) (s : Session) :
    (reset_counts_optimistic Option.none st s).1.yesK = 0 ∧
    (reset_counts_optimistic Option.none st s).1.noK = 0 ∧
    (reset_counts_optimistic Option.none st s).1.resetK = st.resetK + 1 ∧
    (reset_counts_optimistic Option.none st s).1.names.map Prod.fst =
      st.names.map Prod.fst ∧
    (∀ k c, hget st.names k = some c →
      hget (reset_counts_optimistic Option.none st s).1.names k =
        some Choice.none) ∧
    (reset_counts_optimistic Option.none st s).2.local_yes = 0 ∧
    (reset_counts_optimistic Option.none st s).2.local_no = 0 := by
  refine ⟨by simp [reset_counts_optimistic], by simp [reset_counts_optimistic],
    by simp [reset_counts_optimistic], by simp [reset_counts_optimistic],
    ?_, by simp [reset_counts_optimistic], by simp [reset_counts_optimistic]⟩
  intro k c hk
  simp only [reset_counts_optimistic, if_true]
  exact hget_map_none st.names k c hk

theorem reset_counts_success_witness :
    (reset_counts_optimistic Option.none ⟨1, 1, [("a", Choice.yes), ("b", Choice.no)],
        4⟩ ⟨true, some Choice.yes, "a", 4, 1, 1⟩).1.resetK = 5 ∧
    hget (reset_counts_optimistic Option.none
        ⟨1, 1, [("a", Choice.yes), ("b", Choice.no)], 4⟩
        ⟨true, some Choice.yes, "a", 4, 1, 1⟩).1.names "a" =
      some Choice.none := by
  have h := reset_counts_success
    ⟨1, 1, [("a", Choice.yes), ("b", Choice.no)], 4⟩
    ⟨true, some Choice.yes, "a", 4, 1, 1⟩
  exact ⟨h.2.2.1, h.2.2.2.2.1 "a" Choice.yes (by decide)⟩

/-- C6: a successful Reset ALL zeroes both counters, empties the voter
mapping, bumps the reset epoch by one, clears the resetting session, and
any session whose last seen epoch is no newer than the pre-reset epoch
has `voted` and `voted_choice` cleared by its next reset-version
check. -/
theorem reset_all_success (st : Store) (s : Session) :
    (reset_all_optimistic Option.none st s).1.yesK = 0 ∧
    (reset_all_optimistic Option.none st s).1.noK = 0 ∧
    (reset_all_optimistic Option.none st s).1.names = [] ∧
    (reset_all_optimistic Option.none st s).1.resetK = st.resetK + 1 ∧
    (reset_all_optimistic Option.none st s).2.voted = false ∧
    (reset_all_optimistic Option.none st s).2.voted_choice = Option.none ∧
    (∀ s₂ : Session, s₂.last_reset_version ≤ st.resetK →
      (checkUnlock (reset_all_optimistic Option.none st s).1.resetK s₂).voted =
        false ∧
      (checkUnlock (reset_all_optimistic Option.none st s).1.resetK
          s₂).voted_choice = Option.none) := by
  refine ⟨by simp [reset_all_optimistic], by simp [reset_all_optimistic],
    by simp [reset_all_optimistic], by simp [reset_all_optimistic],
    by simp [reset_all_optimistic], by simp [reset_all_optimistic], ?_⟩
  intro s₂ h
  have hlt : s₂.last_reset_version <
      (reset_all_optimistic Option.none st s).1.resetK := by
    simp only [reset_all_optimistic, if_true]
    omega
  simp [checkUnlock, hlt]

theorem reset_all_success_witness :
    (checkUnlock (reset_all_optimistic Option.none ⟨1, 2, [("a", Choice.yes)], 7⟩
        ⟨true, some Choice.yes, "a", 7, 1, 2⟩).1.resetK
      ⟨true, some Choice.no, "z", 7, 9, 9⟩).voted = false ∧
    (checkUnlock (reset_all_optimistic Option.none ⟨1, 2, [("a", Choice.yes)], 7⟩
        ⟨true, some Choice.yes, "a", 7, 1, 2⟩).1.resetK
      ⟨true, some Choice.no, "z", 7, 9, 9⟩).voted_choice = Option.none :=
  (reset_all_success ⟨1, 2, [("a", Choice.yes)], 7⟩
      ⟨true, some Choice.yes, "a", 7, 1, 2⟩).2.2.2.2.2.2
    ⟨true, some Choice.no, "z", 7, 9, 9⟩ (by decide)

/-- C9 counterexample: the non-negativity claim is false of the program
under arbitrary remote failures.  From the fresh store, voter "a" votes
yes, a Reset Counts raises after its first write (`r.set(YES_KEY, 0)`)
landed — leaving the store inconsistent (`yes = 0` while the record
still says yes) and the session unlocked — and "a" then switches to no:
the vote-switch pipeline's `pipe.decr(YES_KEY)` drives the store's yes
counter to `-1`. -/
theorem counters_nonneg_counterexample :
    initStore.consistent ∧
    (runOps (initStore, ⟨false, Option.none, "a", 0, 0, 0⟩)
      [.cast true true true true "a" Choice.yes,
       .resetCounts (some 1),
       .cast true true true true "a" Choice.no]).1.yesK = -1 := by
  decide

/-- C9 (amended): starting from a consistent store and non-negative
local shadow counters, every sequence of optimistic casts, Reset
Counts, and Reset ALL interactions keeps both store counters and both
local shadow counters non-negative, provided every failing reset raises
before its first remote write lands (for example because the store is
unreachable).  A reset that fails part-way through its writes can leave
the store inconsistent, after which a vote-switch drives a store
counter to `-1` (and a failed cast's rollback refresh can then copy the
negative value into the local shadow). -/
theorem counters_nonneg (st : Store) (s : Session) (ops : List Op)
    (hc : st.consistent) (hy : 0 ≤ s.local_yes) (hn : 0 ≤ s.local_no)
    (ha : ∀ o ∈ ops, o.atomicFailure = true) :
    0 ≤ (runOps (st, s) ops).1.yesK ∧ 0 ≤ (runOps (st, s) ops).1.noK ∧
    0 ≤ (runOps (st, s) ops).2.local_yes ∧
    0 ≤ (runOps (st, s) ops).2.local_no := by
  obtain ⟨hc', hy', hn'⟩ := voterInv_runOps (st, s) ops ha ⟨hc, hy, hn⟩
  obtain ⟨h1, h2⟩ := consistent_nonneg _ hc'
  exact ⟨h1, h2, hy', hn'⟩

theorem counters_nonneg_witness :
    initStore.consistent ∧
    (0:Int) ≤ (0:Int) ∧
    (∀ o ∈ [Op.cast true true true true "a" Choice.yes,
            Op.cast true false true true "a" Choice.no,
            Op.resetCounts Option.none, Op.resetAll (some 0)],
      o.atomicFailure = true) ∧
    (0 ≤ (runOps (initStore, ⟨false, Option.none, "a", 0, 0, 0⟩)
        [.cast true true true true "a" Choice.yes,
         .cast true false true true "a" Choice.no,
         .resetCounts Option.none, .resetAll (some 0)]).1.yesK ∧
      0 ≤ (runOps (initStore, ⟨false, Option.none, "a", 0, 0, 0⟩)
        [.cast true true true true "a" Choice.yes,
         .cast true false true true "a" Choice.no,
         .resetCounts Option.none, .resetAll (some 0)]).1.noK ∧
      0 ≤ (runOps (initStore, ⟨false, Option.none, "a", 0, 0, 0⟩)
        [.cast true true true true "a" Choice.yes,
         .cast true false true true "a" Choice.no,
         .resetCounts Option.none, .resetAll (some 0)]).2.local_yes ∧
      0 ≤ (runOps (initStore, ⟨false, Option.none, "a", 0, 0, 0⟩)
        [.cast true true true true "a" Choice.yes,
         .cast true false true true "a" Choice.no,
         .resetCounts Option.none, .resetAll (some 0)]).2.local_no) :=
  ⟨by decide, by decide, by decide,
   counters_nonneg initStore ⟨false, Option.none, "a", 0, 0, 0⟩
     [.cast true true true true "a" Choice.yes,
      .cast true false true true "a" Choice.no,
      .resetCounts Option.none, .resetAll (some 0)]
     (by decide) (by decide) (by decide) (by decide)⟩

/-- C10: when the remote phase of Reset Counts raises, the rollback
restores only the local shadow counters: the session's `voted` flag and
recorded choice stay cleared whatever the failure point, its last seen
epoch is unchanged, a named session's vote buttons are re-enabled, and
in the raise-before-any-write failure mode the store is untouched. -/
theorem reset_counts_failure_unlocks (w : Nat) (st : Store) (s : Session) :
    (reset_counts_optimistic (some 0) st s).1 = st ∧
    (reset_counts_optimistic (some w) st s).2 =
      { s with voted := false, voted_choice := Option.none } ∧
    (s.voter_name ≠ "" →
      yes_button_disabled (reset_counts_optimistic (some w) st s).2 =
        false ∧
      no_button_disabled (reset_counts_optimistic (some w) st s).2 =
        false) := by
  have hmin : min 0 (2 + st.names.length) = 0 := by omega
  refine ⟨?_, by simp [reset_counts_optimistic], ?_⟩
  · simp [reset_counts_optimistic, hmin, setNamesNoneFirst]
  · intro h
    simp [reset_counts_optimistic, yes_button_disabled,
      no_button_disabled, h]

theorem reset_counts_failure_unlocks_witness :
    yes_button_disabled (reset_counts_optimistic (some 1)
        ⟨1, 0, [("a", Choice.yes)], 2⟩
        ⟨true, some Choice.yes, "a", 2, 1, 0⟩).2 = false :=
  ((reset_counts_failure_unlocks 1 ⟨1, 0, [("a", Choice.yes)], 2⟩
      ⟨true, some Choice.yes, "a", 2, 1, 0⟩).2.2 (by decide)).1
